import Mathlib

/-!
Verification of the normalization-and-aggregation pipeline of analyse.py.

The Python source is shallowly embedded: Python floats are modelled as exact
rationals, Python ints as integers, Python strings as Lean strings (lists of
characters), dict rows as structures with Option-valued fields (none models a
missing key or a CSV null, which the pipeline treats alike), and the fatal
SystemExit on empty input as an Except error value.

Known model idealizations, stated once here:
- Python float arithmetic is IEEE-754 binary64; the model computes with exact
  rationals, so binary rounding of parsed constants is not modelled.
- float() and int() accept underscores between digits and the special forms
  inf and nan; the model covers the plain numeric-literal fragment only
  (no claim depends on these forms).
- round() and string formatting round half to even on the exact value here,
  matching Python semantics whenever the value is exactly representable.
- datetime.date.fromisoformat is modelled for the plain YYYY-MM-DD form; the
  four explicit strptime formats are modelled in full, including the
  backtracking alternation order of the CPython _strptime regexes.
-/

attribute [local semireducible] Rat.add Rat.mul Rat.inv Rat.sub Rat.ofScientific

namespace Analyse

/-- Whitespace characters recognized by Python str.strip (ASCII subset). -/
def isPySpaceB (c : Char) : Bool :=
  c == ' ' || c == '\t' || c == '\n' || c == '\r' || c == Char.ofNat 11 || c == Char.ofNat 12

/-- Model of str.strip on a character list. -/
def pyStripL (l : List Char) : List Char :=
  ((l.dropWhile isPySpaceB).reverse.dropWhile isPySpaceB).reverse

/-- Model of str.strip. -/
def pyStrip (s : String) : String := ⟨pyStripL s.data⟩

/-- Model of str.lower (ASCII). -/
def pyLower (s : String) : String := ⟨s.data.map Char.toLower⟩

/-- The decimal digit character for a value below ten. -/
def digitChar (n : ℕ) : Char := Char.ofNat (48 + n)

/-- Numeric value of a digit character. -/
def dVal (c : Char) : ℕ := c.toNat - 48

def isDigitB (c : Char) : Bool := c.isDigit

/-- Value of a big-endian digit string. -/
def digitsVal (l : List Char) : ℕ := l.foldl (fun a c => 10 * a + dVal c) 0

def allDigits (l : List Char) : Bool := l.all isDigitB

/-- Exponent digits of a float literal (nonempty digit run). -/
def parseExpDigits (l : List Char) : Option ℤ :=
  if l.isEmpty then Option.none
  else if allDigits l then some (digitsVal l : ℤ) else Option.none

/-- Signed exponent part of a float literal, after the letter e. -/
def parseExpPart (l : List Char) : Option ℤ :=
  match l with
  | '+' :: t => parseExpDigits t
  | '-' :: t => (parseExpDigits t).map Neg.neg
  | _ => parseExpDigits l

/-- Value of integer digits ip and fraction digits fp. -/
def mkVal (ip fp : List Char) : ℚ :=
  (digitsVal ip : ℚ) + (digitsVal fp : ℚ) / 10 ^ fp.length

/-- Unsigned Python float literal: digits, optional point, optional exponent. -/
def parseUFloat (cs : List Char) : Option ℚ :=
  let ip := cs.takeWhile isDigitB
  match cs.dropWhile isDigitB with
  | [] => if ip.isEmpty then Option.none else some (digitsVal ip : ℚ)
  | '.' :: r2 =>
    let fp := r2.takeWhile isDigitB
    if ip.isEmpty && fp.isEmpty then Option.none
    else
      match r2.dropWhile isDigitB with
      | [] => some (mkVal ip fp)
      | 'e' :: r4 => (parseExpPart r4).map (fun e => mkVal ip fp * 10 ^ e)
      | 'E' :: r4 => (parseExpPart r4).map (fun e => mkVal ip fp * 10 ^ e)
      | _ => Option.none
  | 'e' :: r2 =>
    if ip.isEmpty then Option.none
    else (parseExpPart r2).map (fun e => (digitsVal ip : ℚ) * 10 ^ e)
  | 'E' :: r2 =>
    if ip.isEmpty then Option.none
    else (parseExpPart r2).map (fun e => (digitsVal ip : ℚ) * 10 ^ e)
  | _ => Option.none

/-- Model of the Python float() literal grammar (sign and magnitude). -/
def pyFloatLit (cs : List Char) : Option ℚ :=
  if cs.head? = some '+' then parseUFloat cs.tail
  else if cs.head? = some '-' then (parseUFloat cs.tail).map Neg.neg
  else parseUFloat cs

/-- A Python value as it can reach the field normalizers: None, text, or a number. -/
inductive PyVal where
  | none
  | str (s : String)
  | num (q : ℚ)
deriving DecidableEq

/-- The character rewriting done by parse_swedish_float before calling float():
strip, remove all spaces, replace comma with point. -/
def swTransform (s : String) : List Char :=
  (((pyStrip s).data.filter (fun c => !(c == ' '))).map
    (fun c => if c == ',' then '.' else c))

/-- Embedding of parse_swedish_float from analyse.py. -/
def parse_swedish_float (v : PyVal) : ℚ :=
  match v with
  | .none => 0
  | .num q => q
  | .str s =>
    if pyStrip s = "" then 0
    else (pyFloatLit (swTransform s)).getD 0

/-- Model of the Python int() literal grammar (strips whitespace, optional sign). -/
def pyIntLit (s : String) : Option ℤ :=
  match pyStripL s.data with
  | [] => Option.none
  | '+' :: t => if t.isEmpty || !allDigits t then Option.none else some (digitsVal t : ℤ)
  | '-' :: t => if t.isEmpty || !allDigits t then Option.none else some (-(digitsVal t : ℤ))
  | l => if allDigits l then some (digitsVal l : ℤ) else Option.none

/-- Truncation toward zero, the behaviour of int() on a number. -/
def truncQ (q : ℚ) : ℤ :=
  if 0 ≤ q then q.num.fdiv q.den else -((-q).num.fdiv (-q).den)

/-- Embedding of safe_int from analyse.py. -/
def safe_int (v : PyVal) (d : ℤ) : ℤ :=
  match v with
  | .none => d
  | .str s => if s = "" then d else (pyIntLit s).getD d
  | .num q => truncQ q

/-- A calendar date. -/
structure Date where
  year : ℕ
  month : ℕ
  day : ℕ
deriving DecidableEq, Repr

def isLeap (y : ℕ) : Bool := y % 4 == 0 && (!(y % 100 == 0) || y % 400 == 0)

def daysInMonth (y m : ℕ) : ℕ :=
  if m == 2 then (if isLeap y then 29 else 28)
  else if m == 4 || m == 6 || m == 9 || m == 11 then 30
  else 31

/-- Validity check of datetime.date (year range of MINYEAR..MAXYEAR). -/
def validDate (y m d : ℕ) : Bool :=
  decide (1 ≤ y) && decide (y ≤ 9999) && decide (1 ≤ m) && decide (m ≤ 12)
    && decide (1 ≤ d) && decide (d ≤ daysInMonth y m)

/-- strptime directives appearing in the four formats of parse_date_flex. -/
inductive Tok where
  | lit (c : Char)
  | Y
  | mo
  | dy
  | y2
deriving DecidableEq

/-- Bool test that a character lies between two characters inclusively. -/
def cin (lo hi c : Char) : Bool := decide (lo.toNat ≤ c.toNat) && decide (c.toNat ≤ hi.toNat)

def twoDigitVal (a b : Char) : ℕ := 10 * dVal a + dVal b

/-- Candidate matches of one strptime directive, in CPython regex alternation
order (longer alternatives first where the regex lists them first). -/
def cands : Tok → List Char → List (ℕ × List Char)
  | .Y, a :: b :: c :: d :: rest =>
    if a.isDigit && b.isDigit && c.isDigit && d.isDigit then
      [(10 * (10 * (10 * dVal a + dVal b) + dVal c) + dVal d, rest)]
    else []
  | .Y, _ => []
  | .y2, a :: b :: rest =>
    if a.isDigit && b.isDigit then [(twoDigitVal a b, rest)] else []
  | .y2, _ => []
  | .mo, a :: b :: rest =>
    (if (cin '1' '1' a && cin '0' '2' b) || (cin '0' '0' a && cin '1' '9' b) then
      [(twoDigitVal a b, rest)] else []) ++
    (if cin '1' '9' a then [(dVal a, b :: rest)] else [])
  | .mo, [a] => if cin '1' '9' a then [(dVal a, [])] else []
  | .mo, [] => []
  | .dy, a :: b :: rest =>
    (if (cin '3' '3' a && cin '0' '1' b) || (cin '1' '2' a && b.isDigit)
        || (cin '0' '0' a && cin '1' '9' b) then
      [(twoDigitVal a b, rest)] else []) ++
    (if cin '1' '9' a then [(dVal a, b :: rest)] else [])
  | .dy, [a] => if cin '1' '9' a then [(dVal a, [])] else []
  | .dy, [] => []
  | .lit _, _ => []

/-- Partial date assembled while matching a strptime format. -/
structure DRaw where
  yr : ℕ
  mon : ℕ
  day : ℕ
deriving DecidableEq

def setTok (t : Tok) (v : ℕ) (a : DRaw) : DRaw :=
  match t with
  | .Y => { a with yr := v }
  | .y2 => { a with yr := if v ≤ 68 then 2000 + v else 1900 + v }
  | .mo => { a with mon := v }
  | .dy => { a with day := v }
  | .lit _ => a

/-- Backtracking matcher of a fixed strptime format against the whole input. -/
def runPat : List Tok → List Char → DRaw → Option DRaw
  | [], [], a => some a
  | [], _ :: _, _ => Option.none
  | .lit c :: ts, cs, a =>
    match cs with
    | c2 :: r => if c2 == c then runPat ts r a else Option.none
    | [] => Option.none
  | t :: ts, cs, a => (cands t cs).findSome? (fun p => runPat ts p.2 (setTok t p.1 a))

def mkDate (a : DRaw) : Option Date :=
  if validDate a.yr a.mon a.day then some ⟨a.yr, a.mon, a.day⟩ else Option.none

def fmtYMDdash : List Tok := [.Y, .lit '-', .mo, .lit '-', .dy]
def fmtYMDslash : List Tok := [.Y, .lit '/', .mo, .lit '/', .dy]
def fmtDMYdash : List Tok := [.dy, .lit '-', .mo, .lit '-', .Y]
def fmtDMYslash2 : List Tok := [.dy, .lit '/', .mo, .lit '/', .y2]

/-- Model of datetime.strptime(s, fmt).date() for the four formats used. -/
def strptimeDate (fmt : List Tok) (s : String) : Option Date :=
  (runPat fmt s.data ⟨1900, 1, 1⟩).bind mkDate

/-- Model of datetime.fromisoformat(s).date() for the plain YYYY-MM-DD form. -/
def pyFromIso (s : String) : Option Date :=
  match s.data with
  | [a1, a2, a3, a4, h1, b1, b2, h2, c1, c2] =>
    if (a1.isDigit && a2.isDigit && a3.isDigit && a4.isDigit
        && b1.isDigit && b2.isDigit && c1.isDigit && c2.isDigit)
        && (h1 == '-' && h2 == '-') then
      let y := digitsVal [a1, a2, a3, a4]
      let m := digitsVal [b1, b2]
      let d := digitsVal [c1, c2]
      if validDate y m d then some ⟨y, m, d⟩ else Option.none
    else Option.none
  | _ => Option.none

/-- Embedding of parse_date_flex from analyse.py: the four explicit formats in
order, then ISO-8601 fallback; empty or falsy input gives no date. -/
def parse_date_flex (s : String) : Option Date :=
  if s = "" then Option.none
  else
    let t := pyStrip s
    (strptimeDate fmtYMDdash t).orElse (fun _ =>
    (strptimeDate fmtYMDslash t).orElse (fun _ =>
    (strptimeDate fmtDMYdash t).orElse (fun _ =>
    (strptimeDate fmtDMYslash2 t).orElse (fun _ =>
    pyFromIso t))))

/-- Digit characters of a natural number, most significant first; fuel-based so
that it evaluates by kernel reduction. -/
def natDigitsF : ℕ → ℕ → List Char
  | 0, _ => []
  | fuel + 1, n =>
    if n < 10 then [digitChar n] else natDigitsF fuel (n / 10) ++ [digitChar (n % 10)]

def natDigits (n : ℕ) : List Char := natDigitsF (n + 1) n

def natStr (n : ℕ) : String := ⟨natDigits n⟩

/-- Decimal rendering of an integer, as Python str() renders it. -/
def intStr (z : ℤ) : String := (if z < 0 then "-" else "") ++ natStr z.natAbs

/-- Insert a space between three-digit groups, counting from the right, as the
comma grouping of Python format does (fuel-based). -/
def group3F : ℕ → List Char → List Char
  | 0, ds => ds
  | fuel + 1, ds =>
    if ds.length ≤ 3 then ds
    else group3F fuel (ds.take (ds.length - 3)) ++ ' ' :: ds.drop (ds.length - 3)

def group3 (ds : List Char) : List Char := group3F ds.length ds

/-- The two fraction digits of a count of hundredths. -/
def twoDig (r : ℕ) : List Char := [digitChar (r / 10), digitChar (r % 10)]

/-- Swedish rendering of a signed count of hundredths: sign, space-grouped
integer digits, comma, two fraction digits. -/
def renderCenti (m : ℤ) : List Char :=
  (if m < 0 then ['-'] else [])
    ++ group3 (natDigits (m.natAbs / 100)) ++ ',' :: twoDig (m.natAbs % 100)

/-- Floor of a rational, via integer floor division (kernel-reducible). -/
def qFloor (q : ℚ) : ℤ := q.num.fdiv q.den

/-- Round half to even, the rounding of Python round() and string formatting. -/
def roundHE (q : ℚ) : ℤ :=
  if q - qFloor q < 1/2 then qFloor q
  else if (1 : ℚ)/2 < q - qFloor q then qFloor q + 1
  else if qFloor q % 2 == 0 then qFloor q else qFloor q + 1

/-- Python round(x, 2) on the exact value. -/
def pyRound2 (q : ℚ) : ℚ := (roundHE (100 * q) : ℚ) / 100

/-- Python round(x, 1) on the exact value. -/
def pyRound1 (q : ℚ) : ℚ := (roundHE (10 * q) : ℚ) / 10

/-- Embedding of format_sek from analyse.py: float(v) with fallback 0.0, then
format with two decimals and comma grouping, then swap separators. -/
def format_sek (v : PyVal) : String :=
  let x : ℚ :=
    match v with
    | .num q => q
    | .none => 0
    | .str s => (pyFloatLit (pyStripL s.data)).getD 0
  ⟨renderCenti (roundHE (100 * x))⟩

/-- A raw CSV record: each recognized column is present with a text value, or
absent (modelling both a missing column and a CSV null). -/
structure RawRecord where
  ticket_id : Option String
  device_hostname : Option String
  site : Option String
  category : Option String
  severity : Option String
  week_number : Option String
  resolution_minutes : Option String
  affected_users : Option String
  cost_sek : Option String
  impact_score : Option String
  date : Option String
  incident_date : Option String
deriving DecidableEq

/-- A raw record with every field absent. -/
def emptyRaw : RawRecord :=
  ⟨Option.none, Option.none, Option.none, Option.none, Option.none, Option.none,
   Option.none, Option.none, Option.none, Option.none, Option.none, Option.none⟩

/-- A normalized row, mirroring the dict produced per record by
network_incidents: the four plain string fields keep their (stripped) raw
state, possibly absent; the typed fields are always set. -/
structure Row where
  ticket_id : Option String
  device_hostname : Option String
  site : Option String
  category : Option String
  severity : String
  week_number : ℤ
  resolution_minutes : ℤ
  affected_users : ℤ
  cost_sek : ℚ
  impact_score : Option String
  date_raw : String
  date_parsed : Option Date
deriving DecidableEq

/-- Python x or default on an optional string: falsy (absent or empty) picks
the default. -/
def optOr (o : Option String) (d : String) : String :=
  match o with
  | Option.none => d
  | some s => if s = "" then d else s

/-- Python s or default on a plain string. -/
def strOr (s d : String) : String := if s = "" then d else s

/-- The PyVal reaching a parser from row.get(key): text if present, else None. -/
def pvOf (o : Option String) : PyVal :=
  match o with
  | some s => .str s
  | Option.none => .none

/-- Embedding of the per-record normalization loop of network_incidents:
strip every text value, then derive the typed fields. -/
def normalize (r : RawRecord) : Row :=
  let wk := match r.week_number.map pyStrip with
    | some s => safe_int (.str s) 0
    | Option.none => safe_int (.num 0) 0
  let dr := optOr (r.date.map pyStrip) (optOr (r.incident_date.map pyStrip) "")
  { ticket_id := r.ticket_id.map pyStrip
    device_hostname := r.device_hostname.map pyStrip
    site := r.site.map pyStrip
    category := r.category.map pyStrip
    severity := pyLower (pyStrip (optOr (r.severity.map pyStrip) ""))
    week_number := wk
    resolution_minutes := safe_int (pvOf (r.resolution_minutes.map pyStrip)) 0
    affected_users := safe_int (pvOf (r.affected_users.map pyStrip)) 0
    cost_sek := parse_swedish_float (pvOf (r.cost_sek.map pyStrip))
    impact_score := r.impact_score.map pyStrip
    date_raw := dr
    date_parsed := parse_date_flex dr }

/-- Severity key used for grouping: empty severity counts as unknown. -/
def sevKey (r : Row) : String := strOr r.severity "unknown"

def siteKey (r : Row) : String := optOr r.site "UNKNOWN"

def devKey (r : Row) : String := optOr r.device_hostname "UNKNOWN"

def catKey (r : Row) : String := optOr r.category "UNKNOWN"

/-- Python string comparison (codepoint lexicographic), kernel-reducible. -/
def strLtB : List Char → List Char → Bool
  | [], [] => false
  | [], _ :: _ => true
  | _ :: _, [] => false
  | a :: as, b :: bs =>
    if a.toNat < b.toNat then true
    else if b.toNat < a.toNat then false
    else strLtB as bs

def pyStrLe (a b : String) : Prop := strLtB b.data a.data = false

instance : DecidableRel pyStrLe := fun a b => instDecidableEqBool (strLtB b.data a.data) false

/-- First-occurrence deduplication, the content of a Python set build. -/
def dedupL : List String → List String
  | [] => []
  | a :: t => a :: (dedupL t).filter (fun b => !(b == a))

/-- Python sorted() over a set of strings. -/
def sortedStrings (l : List String) : List String :=
  List.insertionSort pyStrLe (dedupL l)

/-- Per-severity statistics record. -/
structure SevStat where
  count : ℕ
  avg_res : ℤ
  avg_cost : ℚ
deriving DecidableEq

/-- Embedding of the per_severity loop: keys are the sorted distinct values of
severity-or-unknown, but each group is collected by literal severity equality. -/
def perSeverity (rows : List Row) : List (String × SevStat) :=
  (sortedStrings (rows.map sevKey)).map (fun sev =>
    let grp := rows.filter (fun r => r.severity == sev)
    let cnt := grp.length
    (sev,
      { count := cnt
        avg_res := if cnt = 0 then 0
          else roundHE (((grp.map (·.resolution_minutes)).sum : ℚ) / cnt)
        avg_cost := if cnt = 0 then 0
          else pyRound2 ((grp.map (·.cost_sek)).sum / cnt) }))

/-- Python stable insertion of a row into a cost-descending sorted list: the
incoming row goes after every earlier row of greater or equal cost. -/
def pyInsertDesc (a : Row) : List Row → List Row
  | [] => [a]
  | b :: t => if a.cost_sek < b.cost_sek then b :: pyInsertDesc a t else a :: b :: t

/-- Python sorted(rows, key=cost, reverse=True): a stable descending sort. -/
def pySortDesc : List Row → List Row
  | [] => []
  | a :: t => pyInsertDesc a (pySortDesc t)

/-- Embedding of the top5 slice of network_incidents. -/
def top5ByCost (rows : List Row) : List Row := (pySortDesc rows).take 5

/-- Embedding of the big_incidents filter (more than 100 affected users). -/
def bigIncidents (rows : List Row) : List Row :=
  rows.filter (fun r => decide (100 < r.affected_users))

/-- Association-list helpers mirroring Python dict access (insertion order). -/
def alUpd {α : Type} (k : String) (f : α → α) (i : α) : List (String × α) → List (String × α)
  | [] => [(k, f i)]
  | (k2, v) :: t => if k2 == k then (k2, f v) :: t else (k2, v) :: alUpd k f i t

def alGet {α : Type} (k : String) : List (String × α) → Option α
  | [] => Option.none
  | (k2, v) :: t => if k2 == k then some v else alGet k t

/-- Per-site summary record; avg_res is filled by a second pass as in the code. -/
structure SiteData where
  count : ℕ
  total_cost : ℚ
  total_res : ℤ
  critical : ℕ
  high : ℕ
  medium : ℕ
  low : ℕ
  avg_res : ℚ
deriving DecidableEq

def siteInit : SiteData := ⟨0, 0, 0, 0, 0, 0, 0, 0⟩

/-- One site-summary update: bump count and accumulators, and the sub-count of
the severity when it is one of the four recognized ones. -/
def siteBump (r : Row) (d : SiteData) : SiteData :=
  let d1 := { d with
    count := d.count + 1
    total_res := d.total_res + r.resolution_minutes
    total_cost := d.total_cost + r.cost_sek }
  if r.severity == "critical" then { d1 with critical := d1.critical + 1 }
  else if r.severity == "high" then { d1 with high := d1.high + 1 }
  else if r.severity == "medium" then { d1 with medium := d1.medium + 1 }
  else if r.severity == "low" then { d1 with low := d1.low + 1 }
  else d1

def siteStep (acc : List (String × SiteData)) (r : Row) : List (String × SiteData) :=
  alUpd (siteKey r) (siteBump r) siteInit acc

/-- The avg_res second pass applied to one site record. -/
def siteFinish (d : SiteData) : SiteData :=
  { d with avg_res := if d.count = 0 then 0 else pyRound1 ((d.total_res : ℚ) / d.count) }

/-- Embedding of the site_summary build plus its avg_res second pass. -/
def siteSummary (rows : List Row) : List (String × SiteData) :=
  (rows.foldl siteStep []).map (fun p => (p.1, siteFinish p.2))

/-- Numeric severity score (severity_map.get with default 0). -/
def severityScore (s : String) : ℤ :=
  if s == "critical" then 4
  else if s == "high" then 3
  else if s == "medium" then 2
  else if s == "low" then 1
  else 0

/-- Device type from the hostname code before the first hyphen. -/
def devTypeOf (dev : String) : String :=
  let code : String := ⟨dev.data.takeWhile (fun c => !(c == '-'))⟩
  if code == "SW" then "switch"
  else if code == "AP" then "access_point"
  else if code == "RT" then "router"
  else if code == "FW" then "firewall"
  else if code == "LB" then "load_balancer"
  else "other"

/-- The nonzero week numbers of the rows, in input order. -/
def weeksOf (rows : List Row) : List ℤ :=
  (rows.map (·.week_number)).filter (fun w => !(w == 0))

/-- Per-device summary record. -/
structure DevData where
  site : String
  device_type : String
  count : ℕ
  sev_scores : List ℤ
  total_cost : ℚ
  total_users : ℤ
  recent : Bool
deriving DecidableEq

/-- max of the nonzero week numbers, 0 when there are none. -/
def maxWeekOf (rows : List Row) : ℤ :=
  match weeksOf rows with
  | [] => 0
  | w :: ws => ws.foldl max w

def devInit (r : Row) : DevData :=
  { site := siteKey r
    device_type := devTypeOf (devKey r)
    count := 0
    sev_scores := []
    total_cost := 0
    total_users := 0
    recent := false }

/-- One device-summary update, with mw the maximum observed week. -/
def devBump (mw : ℤ) (r : Row) (d : DevData) : DevData :=
  { d with
    count := d.count + 1
    sev_scores := d.sev_scores ++ [severityScore (pyLower (strOr r.severity "unknown"))]
    total_cost := d.total_cost + r.cost_sek
    total_users := d.total_users + r.affected_users
    recent := d.recent || decide (mw - 1 ≤ r.week_number) }

def devStep (mw : ℤ) (acc : List (String × DevData)) (r : Row) : List (String × DevData) :=
  alUpd (devKey r) (devBump mw r) (devInit r) acc

/-- Embedding of the device_summary build. -/
def devSummary (rows : List Row) : List (String × DevData) :=
  rows.foldl (devStep (maxWeekOf rows)) []

/-- Per-week cost record. -/
structure WeekData where
  impact_scores : List ℚ
  total_cost : ℚ
deriving DecidableEq

/-- Association-list helpers for integer week keys. -/
def alUpdW {α : Type} (k : ℤ) (f : α → α) (i : α) : List (ℤ × α) → List (ℤ × α)
  | [] => [(k, f i)]
  | (k2, v) :: t => if k2 == k then (k2, f v) :: t else (k2, v) :: alUpdW k f i t

def weeklyStep (acc : List (ℤ × WeekData)) (r : Row) : List (ℤ × WeekData) :=
  if r.week_number == 0 || decide (r.week_number < 1) || decide (52 < r.week_number) then acc
  else alUpdW r.week_number
    (fun d => { d with
      total_cost := d.total_cost + r.cost_sek
      impact_scores := d.impact_scores ++ [parse_swedish_float (pvOf r.impact_score)] })
    ⟨[], 0⟩ acc

/-- Embedding of the weekly_summary build (weeks 1..52 only). -/
def weeklySummary (rows : List Row) : List (ℤ × WeekData) :=
  rows.foldl weeklyStep []

/-- Per-category impact-score accumulation, in first-occurrence order. -/
def alAppendQ (k : String) (q : ℚ) : List (String × List ℚ) → List (String × List ℚ)
  | [] => [(k, [q])]
  | (k2, v) :: t => if k2 == k then (k2, v ++ [q]) :: t else (k2, v) :: alAppendQ k q t

def catScores (rows : List Row) : List (String × List ℚ) :=
  rows.foldl (fun acc r =>
    alAppendQ (catKey r) (parse_swedish_float (pvOf r.impact_score)) acc) []

/-- Embedding of avg_cat_scores: mean impact score per category, 1 decimal. -/
def avgCatScores (rows : List Row) : List (String × ℚ) :=
  (catScores rows).filterMap (fun p =>
    if p.2.isEmpty then Option.none
    else some (p.1, pyRound1 (p.2.sum / p.2.length)))

/-- ISO rendering of a date (zero-padded). -/
def padN (w : ℕ) (v : ℕ) : String :=
  ⟨List.replicate (w - (natDigits v).length) '0' ++ natDigits v⟩

def isoDate (d : Date) : String :=
  padN 4 d.year ++ "-" ++ padN 2 d.month ++ "-" ++ padN 2 d.day

def dateLeB (a b : Date) : Bool :=
  decide (a.year < b.year)
  || (a.year == b.year
      && (decide (a.month < b.month)
          || (a.month == b.month && decide (a.day ≤ b.day))))

def dMin (a b : Date) : Date := if dateLeB a b then a else b

def dMax (a b : Date) : Date := if dateLeB a b then b else a

/-- Embedding of the period computation: date span, else nonzero-week span,
else the unknown marker. -/
def periodOf (rows : List Row) : String :=
  match rows.filterMap (·.date_parsed) with
  | d :: ds => isoDate (ds.foldl dMin d) ++ " to " ++ isoDate (ds.foldl dMax d)
  | [] =>
    match weeksOf rows with
    | [] => "Unknown period"
    | w :: ws =>
      let lo := ws.foldl min w
      let hi := ws.foldl max w
      if lo == hi then "Week " ++ intStr lo
      else "Weeks " ++ intStr lo ++ "-" ++ intStr hi

/-- Everything network_incidents computes and returns or writes. -/
structure Results where
  rows : List Row
  total_incidents : ℕ
  total_cost : ℚ
  sites : List String
  period : String
  sev_counts : String → ℕ
  per_severity : List (String × SevStat)
  big_incidents : List Row
  top5 : List Row
  device_counts : String → ℕ
  recurring_devices : List (String × ℕ)
  site_summary : List (String × SiteData)
  avg_cat_scores : List (String × ℚ)
  cat_counts : String → ℕ
  device_summary : List (String × DevData)
  weekly_summary : List (ℤ × WeekData)

/-- All aggregate views computed by network_incidents from the normalized
rows. -/
def buildResults (rows : List Row) : Results :=
  {
    rows := rows
    total_incidents := rows.length
    total_cost := (rows.map (·.cost_sek)).sum
    sites := sortedStrings (rows.map siteKey)
    period := periodOf rows
    sev_counts := fun k => (rows.map sevKey).count k
    per_severity := perSeverity rows
    big_incidents := bigIncidents rows
    top5 := top5ByCost rows
    device_counts := fun k => (rows.map devKey).count k
    recurring_devices := (dedupL (rows.map devKey)).filterMap (fun d =>
      let c := (rows.map devKey).count d
      if 1 < c then some (d, c) else Option.none)
    site_summary := siteSummary rows
    avg_cat_scores := avgCatScores rows
    cat_counts := fun k => (rows.map catKey).count k
    device_summary := devSummary rows
    weekly_summary := weeklySummary rows }

/-- Embedding of network_incidents: normalize every record, abort fatally on
empty input (SystemExit becomes an error value), otherwise produce every
aggregate view. -/
def network_incidents (rrs : List RawRecord) : Except String Results :=
  let rows := rrs.map normalize
  if rows.isEmpty then .error "No rows read from CSV. Check file content."
  else .ok (buildResults rows)

/-- Strict-total lexicographic order on position-tagged rows: cost descending,
then input position ascending. Sorting by it is the standard characterization
of a stable descending sort by cost. -/
def lexLe (p q : ℕ × Row) : Prop :=
  q.2.cost_sek < p.2.cost_sek ∨ (p.2.cost_sek = q.2.cost_sek ∧ p.1 ≤ q.1)

instance : DecidableRel lexLe := fun _ _ => inferInstanceAs (Decidable (_ ∨ _))

/-- Spec-side description of the top-5 view: attach input positions, sort by
cost descending with ties by input position, truncate to five. -/
def specTop5 (rows : List Row) : List Row :=
  ((List.insertionSort lexLe rows.enum).map Prod.snd).take 5

/-- A well-formed Swedish-style currency string in canonical form: optional
sign, space-grouped digits, comma, exactly two decimals — exactly the
renderings of some signed count of hundredths. -/
def wfSEK (x : String) : Prop := ∃ m : ℤ, x = ⟨renderCenti m⟩

/-- A raw record carrying only a week number. -/
def wkRaw (s : String) : RawRecord := { emptyRaw with week_number := some s }

/-- A raw record carrying a device hostname and a week number. -/
def devWkRaw (d s : String) : RawRecord :=
  { emptyRaw with device_hostname := some d, week_number := some s }

/-- A raw record carrying only a device hostname. -/
def devRaw (d : String) : RawRecord := { emptyRaw with device_hostname := some d }

/-- Concrete input used to witness the device recency analysis. -/
def c8input : List RawRecord :=
  [devWkRaw "SW-1" "5", devWkRaw "SW-1" "7", devWkRaw "AP-2" "2"]

/-- Concrete input used to witness the site summary analysis. -/
def c10input : List RawRecord :=
  [{ emptyRaw with site := some "A", severity := some "critical" },
   { emptyRaw with site := some "A", severity := some "Weird" },
   { emptyRaw with site := some "B", severity := some "low" }]

/-- Accumulation of a group of rows into a site-summary record. -/
def siteAcc (g : List Row) (d : SiteData) : SiteData :=
  g.foldl (fun d r => siteBump r d) d

/-- C1. The claim says the per-severity counts partition the records, empty
severity landing under the key "unknown". The code builds the key set with
severity-or-unknown but collects each group by literal severity equality, so a
record with empty severity yields the key "unknown" with count 0: on a single
such record the counts sum to 0 while total_incidents is 1, and the program's
own sev_counts Counter disagrees, giving 1 for "unknown". -/
theorem c1_empty_severity_not_partitioned :
    (network_incidents [emptyRaw]).toOption.map (fun res =>
      ((res.per_severity.map (fun p => p.2.count)).sum,
        res.total_incidents,
        res.per_severity.map Prod.fst,
        res.sev_counts "unknown"))
      = some (0, 1, ["unknown"], 1) := by
  decide

/-- C2: an empty record sequence aborts fatally with the empty-input message
before any view is produced, and every non-empty sequence yields the full set
of aggregate views with every record kept (no skip-record tier):
total_incidents equals the input length. -/
theorem c2_empty_input_fatal :
    network_incidents [] = .error "No rows read from CSV. Check file content."
    ∧ ∀ rrs : List RawRecord, rrs ≠ [] →
        ∃ res, network_incidents rrs = .ok res ∧ res.total_incidents = rrs.length := by
  refine ⟨rfl, ?_⟩
  intro rrs h
  match rrs with
  | [] => exact absurd rfl h
  | a :: t =>
    refine ⟨_, rfl, ?_⟩
    show (normalize a :: List.map normalize t).length = (a :: t).length
    simp

/-- Witness for C2 at a concrete non-empty input. -/
theorem c2_empty_input_fatal_witness :
    ([emptyRaw] : List RawRecord) ≠ []
    ∧ ∃ res, network_incidents [emptyRaw] = .ok res
        ∧ res.total_incidents = [emptyRaw].length :=
  ⟨by simp, c2_empty_input_fatal.2 [emptyRaw] (by simp)⟩

/-- C3: the currency parser is total with the claimed values, and any string
whose stripped, space-free, comma-to-point rewriting is not a valid float
literal parses to 0. -/
theorem c3_parse_swedish_float_total :
    parse_swedish_float (.str "1 234,50") = 1234.50
    ∧ parse_swedish_float (.str "") = 0
    ∧ parse_swedish_float .none = 0
    ∧ ∀ s : String, pyFloatLit (swTransform s) = Option.none →
        parse_swedish_float (.str s) = 0 := by
  refine ⟨by decide, rfl, rfl, ?_⟩
  intro s h
  have e : parse_swedish_float (.str s)
      = if pyStrip s = "" then 0 else (pyFloatLit (swTransform s)).getD 0 := rfl
  rw [e, h]
  split <;> rfl

/-- Witness for C3 on a malformed literal. -/
theorem c3_parse_swedish_float_total_witness :
    pyFloatLit (swTransform "garbage") = Option.none
    ∧ parse_swedish_float (.str "garbage") = 0 :=
  ⟨by decide, c3_parse_swedish_float_total.2.2.2 "garbage" (by decide)⟩

/-- C6 counterexample: with two distinct nonzero weeks 3 and 7 and no dates,
the code renders the period as "Weeks 3-7" with a hyphen, not the "Weeks 3 to
7" wording of the claim. -/
theorem c6_weeks_hyphen_counterexample :
    (network_incidents [wkRaw "3", wkRaw "7"]).toOption.map (·.period) = some "Weeks 3-7"
    ∧ "Weeks 3-7" ≠ "Weeks 3 to 7" := by
  constructor
  · decide
  · decide

/-- C7: the date parser tries the four explicit formats in fixed order and
then generic ISO-8601, returning the first success; the three representative
literals (and the two-digit-year one) parse to 2024-03-05, an unparsable
string yields no date, and a string matched by the first format is decided by
it. -/
theorem c7_parse_date_flex_formats :
    parse_date_flex "2024-03-05" = some ⟨2024, 3, 5⟩
    ∧ parse_date_flex "2024/03/05" = some ⟨2024, 3, 5⟩
    ∧ parse_date_flex "05-03-2024" = some ⟨2024, 3, 5⟩
    ∧ parse_date_flex "05/03/24" = some ⟨2024, 3, 5⟩
    ∧ parse_date_flex "garbage" = Option.none
    ∧ ∀ s d, strptimeDate fmtYMDdash (pyStrip s) = some d →
        parse_date_flex s = some d := by
  refine ⟨by decide, by decide, by decide, by decide, by decide, ?_⟩
  intro s d h
  unfold parse_date_flex
  split
  · rename_i hs
    subst hs
    simp [show strptimeDate fmtYMDdash (pyStrip "") = (Option.none : Option Date) from rfl] at h
  · show (strptimeDate fmtYMDdash (pyStrip s)).orElse _ = some d
    rw [h]
    rfl

/-- Witness for C7 applying the first-format clause. -/
theorem c7_parse_date_flex_formats_witness :
    strptimeDate fmtYMDdash (pyStrip "2024-11-30") = some ⟨2024, 11, 30⟩
    ∧ parse_date_flex "2024-11-30" = some ⟨2024, 11, 30⟩ :=
  ⟨by decide, c7_parse_date_flex_formats.2.2.2.2.2 "2024-11-30" ⟨2024, 11, 30⟩ (by decide)⟩

/-- C9 counterexample: normalization does not supply defaults for the four
plain string fields; on a raw record missing them they remain absent in the
normalized record, contrary to the claim that no field is ever absent. -/
theorem c9_string_fields_stay_absent_counterexample :
    (normalize emptyRaw).ticket_id = Option.none
    ∧ (normalize emptyRaw).device_hostname = Option.none
    ∧ (normalize emptyRaw).site = Option.none
    ∧ (normalize emptyRaw).category = Option.none := by
  decide

/-- C9 amended: normalization always defines the typed fields (severity,
week_number, resolution_minutes, affected_users, cost_sek, parsed date get
defaults when the raw field is absent), while the four plain string fields are
kept as stripped raw values, remaining absent when missing; their
UNKNOWN and "-" defaults belong to the use sites. -/
theorem c9_normalization_defaults (r : RawRecord) :
    (normalize r).ticket_id = r.ticket_id.map pyStrip
    ∧ (normalize r).device_hostname = r.device_hostname.map pyStrip
    ∧ (normalize r).site = r.site.map pyStrip
    ∧ (normalize r).category = r.category.map pyStrip
    ∧ (r.severity = Option.none → (normalize r).severity = "")
    ∧ (r.week_number = Option.none → (normalize r).week_number = 0)
    ∧ (r.resolution_minutes = Option.none → (normalize r).resolution_minutes = 0)
    ∧ (r.affected_users = Option.none → (normalize r).affected_users = 0)
    ∧ (r.cost_sek = Option.none → (normalize r).cost_sek = 0)
    ∧ (r.date = Option.none → r.incident_date = Option.none →
        (normalize r).date_parsed = Option.none) := by
  refine ⟨rfl, rfl, rfl, rfl, ?_, ?_, ?_, ?_, ?_, ?_⟩
  · intro h; simp [normalize, h]; try decide
  · intro h; simp [normalize, h]; try decide
  · intro h; simp [normalize, h]; try decide
  · intro h; simp [normalize, h]; try decide
  · intro h; simp [normalize, h]; try decide
  · intro h1 h2; simp [normalize, h1, h2]; try decide

/-- Witness for C9 amended at the all-absent raw record. -/
theorem c9_normalization_defaults_witness :
    (emptyRaw.severity = Option.none
      ∧ (normalize emptyRaw).severity = ""
      ∧ (normalize emptyRaw).week_number = 0
      ∧ (normalize emptyRaw).cost_sek = 0
      ∧ (normalize emptyRaw).date_parsed = Option.none) :=
  ⟨rfl, (c9_normalization_defaults emptyRaw).2.2.2.2.1 rfl,
    (c9_normalization_defaults emptyRaw).2.2.2.2.2.1 rfl,
    (c9_normalization_defaults emptyRaw).2.2.2.2.2.2.2.2.1 rfl,
    (c9_normalization_defaults emptyRaw).2.2.2.2.2.2.2.2.2 rfl rfl⟩

theorem le_fst_of_mem_enumFrom {α : Type} {p : ℕ × α} :
    ∀ {n : ℕ} {l : List α}, p ∈ List.enumFrom n l → n ≤ p.1 := by
  intro n l
  induction l generalizing n with
  | nil => intro h; simp at h
  | cons a t ih =>
    intro h
    rcases List.mem_cons.mp h with h1 | h2
    · subst h1; exact le_refl _
    · exact Nat.le_of_succ_le (ih h2)

theorem pairwise_fst_lt_enumFrom {α : Type} :
    ∀ (n : ℕ) (l : List α), List.Pairwise (fun p q => p.1 < q.1) (List.enumFrom n l) := by
  intro n l
  induction l generalizing n with
  | nil => simp
  | cons a t ih =>
    simp only [List.enumFrom_cons]
    exact List.Pairwise.cons (fun q hq => le_fst_of_mem_enumFrom hq) (ih (n + 1))

theorem map_snd_orderedInsert (a : ℕ × Row) (il : List (ℕ × Row))
    (h : ∀ p ∈ il, a.1 < p.1) :
    (List.orderedInsert lexLe a il).map Prod.snd = pyInsertDesc a.2 (il.map Prod.snd) := by
  induction il with
  | nil => rfl
  | cons b t ih =>
    have hab : a.1 < b.1 := h b (List.mem_cons_self _ _)
    by_cases hc : a.2.cost_sek < b.2.cost_sek
    · have hno : ¬ lexLe a b := by
        rintro (h1 | ⟨h2, _⟩)
        · exact absurd h1 (not_lt.mpr (le_of_lt hc))
        · rw [h2] at hc; exact lt_irrefl _ hc
      rw [List.orderedInsert, if_neg hno]
      simp only [List.map_cons, pyInsertDesc, if_pos hc]
      rw [ih (fun p hp => h p (List.mem_cons_of_mem _ hp))]
    · have hyes : lexLe a b := by
        rcases lt_trichotomy a.2.cost_sek b.2.cost_sek with h1 | h2 | h3
        · exact absurd h1 hc
        · exact Or.inr ⟨h2, le_of_lt hab⟩
        · exact Or.inl h3
      rw [List.orderedInsert, if_pos hyes]
      simp only [List.map_cons, pyInsertDesc, if_neg hc]

theorem map_snd_insertionSort (il : List (ℕ × Row))
    (h : List.Pairwise (fun p q => p.1 < q.1) il) :
    (List.insertionSort lexLe il).map Prod.snd = pySortDesc (il.map Prod.snd) := by
  induction il with
  | nil => rfl
  | cons a t ih =>
    rcases List.pairwise_cons.mp h with ⟨ha, ht⟩
    have hmem : ∀ p ∈ List.insertionSort lexLe t, a.1 < p.1 := fun p hp =>
      ha p ((List.perm_insertionSort lexLe t).mem_iff.mp hp)
    simp only [List.map_cons, pySortDesc]
    rw [List.insertionSort, map_snd_orderedInsert a _ hmem, ih ht]

theorem length_pyInsertDesc (a : Row) (l : List Row) :
    (pyInsertDesc a l).length = l.length + 1 := by
  induction l with
  | nil => rfl
  | cons b t ih =>
    rw [pyInsertDesc]
    split
    · simp [ih]
    · simp

theorem length_pySortDesc (l : List Row) : (pySortDesc l).length = l.length := by
  induction l with
  | nil => rfl
  | cons a t ih =>
    rw [pySortDesc, length_pyInsertDesc, ih]
    rfl

/-- C5: the top-5-by-cost view is exactly the stable descending sort by cost —
the rows sorted by cost descending with ties in input-position order —
truncated to five, and its length is min 5 (number of records). -/
theorem c5_top5_stable_sort (rows : List Row) :
    top5ByCost rows = specTop5 rows
    ∧ (top5ByCost rows).length = min 5 rows.length := by
  constructor
  · unfold specTop5 top5ByCost
    rw [show rows.enum = List.enumFrom 0 rows from rfl,
      map_snd_insertionSort _ (pairwise_fst_lt_enumFrom 0 rows),
      show List.map Prod.snd (List.enumFrom 0 rows) = rows from List.enum_map_snd rows]
  · unfold top5ByCost
    rw [List.length_take, length_pySortDesc]

theorem alGet_alUpd_eq {α : Type} (k : String) (f : α → α) (i : α) (l : List (String × α)) :
    alGet k (alUpd k f i l) = some (f ((alGet k l).getD i)) := by
  induction l with
  | nil => simp [alUpd, alGet]
  | cons p t ih =>
    rcases p with ⟨a, v⟩
    cases hak : a == k
    · simp [alUpd, alGet, hak, ih]
    · simp [alUpd, alGet, hak]

theorem alGet_alUpd_ne {α : Type} (k k2 : String) (hne : k2 ≠ k) (f : α → α) (i : α)
    (l : List (String × α)) : alGet k2 (alUpd k f i l) = alGet k2 l := by
  induction l with
  | nil =>
    have : (k == k2) = false := beq_eq_false_iff_ne.mpr (Ne.symm hne)
    simp [alUpd, alGet, this]
  | cons p t ih =>
    rcases p with ⟨a, v⟩
    cases hak : a == k
    · cases hak2 : a == k2 <;> simp [alUpd, alGet, hak, hak2, ih]
    · have ha : a = k := beq_iff_eq.mp hak
      have : (a == k2) = false := beq_eq_false_iff_ne.mpr (ha ▸ Ne.symm hne)
      simp [alUpd, alGet, hak, this]

theorem siteFold_alGet (rows : List Row) :
    ∀ (acc : List (String × SiteData)) (s : String),
    alGet s (rows.foldl siteStep acc) =
      match alGet s acc with
      | some d => some (siteAcc (rows.filter (fun r => siteKey r == s)) d)
      | Option.none =>
        if (rows.filter (fun r => siteKey r == s)).isEmpty then Option.none
        else some (siteAcc (rows.filter (fun r => siteKey r == s)) siteInit) := by
  induction rows with
  | nil =>
    intro acc s
    cases hacc : alGet s acc <;> simp [siteAcc, hacc]
  | cons r t ih =>
    intro acc s
    simp only [List.foldl_cons]
    rw [ih (siteStep acc r) s]
    simp only [siteStep]
    cases hks : siteKey r == s
    · have hne : s ≠ siteKey r := fun h => by
        rw [h] at hks; simp at hks
      rw [alGet_alUpd_ne _ _ hne]
      simp only [List.filter_cons, hks]
      cases hacc : alGet s acc <;> simp
    · have he : siteKey r = s := beq_iff_eq.mp hks
      rw [he, alGet_alUpd_eq]
      simp only [List.filter_cons, hks]
      cases hacc : alGet s acc <;> simp [siteAcc]

theorem siteBump_fields (r : Row) (d : SiteData) :
    (siteBump r d).count = d.count + 1
    ∧ (siteBump r d).total_res = d.total_res + r.resolution_minutes
    ∧ (siteBump r d).total_cost = d.total_cost + r.cost_sek
    ∧ (siteBump r d).critical = d.critical + (if r.severity == "critical" then 1 else 0)
    ∧ (siteBump r d).high = d.high + (if r.severity == "high" then 1 else 0)
    ∧ (siteBump r d).medium = d.medium + (if r.severity == "medium" then 1 else 0)
    ∧ (siteBump r d).low = d.low + (if r.severity == "low" then 1 else 0) := by
  simp only [siteBump]
  split_ifs <;> simp_all

theorem siteAcc_stats (g : List Row) :
    ∀ d : SiteData,
    (siteAcc g d).count = d.count + g.length
    ∧ (siteAcc g d).critical = d.critical + g.countP (fun r => r.severity == "critical")
    ∧ (siteAcc g d).high = d.high + g.countP (fun r => r.severity == "high")
    ∧ (siteAcc g d).medium = d.medium + g.countP (fun r => r.severity == "medium")
    ∧ (siteAcc g d).low = d.low + g.countP (fun r => r.severity == "low") := by
  induction g with
  | nil => intro d; simp [siteAcc]
  | cons r t ih =>
    intro d
    have hb := siteBump_fields r d
    have ht := ih (siteBump r d)
    simp only [siteAcc, List.foldl_cons] at *
    refine ⟨?_, ?_, ?_, ?_, ?_⟩ <;>
      simp only [List.countP_cons, List.length_cons, ht.1, ht.2.1, ht.2.2.1, ht.2.2.2.1,
        ht.2.2.2.2, hb.1, hb.2.2.2.1, hb.2.2.2.2.1, hb.2.2.2.2.2.1, hb.2.2.2.2.2.2] <;>
      omega

/-- The four recognized severities, as the Bool predicate of the code. -/
def isRecognizedSev (r : Row) : Bool :=
  r.severity == "critical" || r.severity == "high" || r.severity == "medium"
    || r.severity == "low"

theorem four_one (r : Row) :
    ((if (r.severity == "critical") = true then 1 else 0)
      + (if (r.severity == "high") = true then 1 else 0)
      + (if (r.severity == "medium") = true then 1 else 0)
      + (if (r.severity == "low") = true then 1 else 0) : ℕ)
      = if isRecognizedSev r = true then 1 else 0 := by
  by_cases h1 : r.severity = "critical"
  · simp [isRecognizedSev, h1]
  · by_cases h2 : r.severity = "high"
    · simp [isRecognizedSev, h2]
    · by_cases h3 : r.severity = "medium"
      · simp [isRecognizedSev, h3]
      · by_cases h4 : r.severity = "low"
        · simp [isRecognizedSev, h1, h2, h3, h4]
        · simp [isRecognizedSev, h1, h2, h3, h4]

theorem four_countP (g : List Row) :
    g.countP (fun r => r.severity == "critical") + g.countP (fun r => r.severity == "high")
      + g.countP (fun r => r.severity == "medium") + g.countP (fun r => r.severity == "low")
      = g.countP isRecognizedSev := by
  induction g with
  | nil => rfl
  | cons r t ih =>
    simp only [List.countP_cons]
    have := four_one r
    omega

theorem alGet_map_snd {α β : Type} (f : α → β) (k : String) :
    ∀ l : List (String × α),
    alGet k (l.map (fun p => (p.1, f p.2))) = (alGet k l).map f := by
  intro l
  induction l with
  | nil => rfl
  | cons p t ih =>
    rcases p with ⟨a, v⟩
    cases hak : a == k <;> simp [alGet, hak, ih]

theorem buildResults_rows (rows : List Row) : (buildResults rows).rows = rows := rfl

theorem buildResults_site_summary (rows : List Row) :
    (buildResults rows).site_summary = siteSummary rows := rfl

theorem buildResults_device_summary (rows : List Row) :
    (buildResults rows).device_summary = devSummary rows := rfl

theorem buildResults_period (rows : List Row) : (buildResults rows).period = periodOf rows := rfl

/-- Inversion of a successful run: the result is built from the normalized rows. -/
theorem network_incidents_ok (rrs : List RawRecord) (res : Results)
    (hok : network_incidents rrs = Except.ok res) :
    res = buildResults (rrs.map normalize) := by
  by_cases hb : (rrs.map normalize).isEmpty = true
  · simp only [network_incidents, if_pos hb] at hok
    exact absurd hok (by simp)
  · simp only [network_incidents, if_neg hb, Except.ok.injEq] at hok
    exact hok.symm

/-- C10: for every site looked up in the site summary, the four recognized
per-severity sub-counts sum to at most the site total, with equality exactly
when every record of that site has one of the four recognized severities;
records with any other severity are counted in the total (and accumulators)
but in no sub-count. -/
theorem c10_site_severity_subcounts (rrs : List RawRecord) (res : Results) (site : String)
    (d : SiteData) (hok : network_incidents rrs = Except.ok res)
    (hget : alGet site res.site_summary = some d) :
    d.critical + d.high + d.medium + d.low ≤ d.count
    ∧ (d.critical + d.high + d.medium + d.low = d.count ↔
        ∀ r ∈ res.rows, siteKey r = site →
          (r.severity = "critical" ∨ r.severity = "high" ∨ r.severity = "medium"
            ∨ r.severity = "low")) := by
  have hres := network_incidents_ok rrs res hok
  subst hres
  rw [buildResults_site_summary] at hget
  have hget2 := hget
  unfold siteSummary at hget2
  rw [alGet_map_snd siteFinish] at hget2
  rcases Option.map_eq_some'.mp hget2 with ⟨d0, hd0, hd⟩
  rw [siteFold_alGet] at hd0
  simp only [alGet] at hd0
  split at hd0
  · exact absurd hd0 (by simp)
  · rename_i hne
    rw [Option.some.injEq] at hd0
    have hstats := siteAcc_stats ((rrs.map normalize).filter (fun r => siteKey r == site)) siteInit
    set g := (rrs.map normalize).filter (fun r => siteKey r == site) with hg
    have hc : d.count = g.length := by
      rw [← hd, ← hd0]; simpa [siteFinish, siteInit] using hstats.1
    have hcr : d.critical = g.countP (fun r => r.severity == "critical") := by
      rw [← hd, ← hd0]; simpa [siteFinish, siteInit] using hstats.2.1
    have hhi : d.high = g.countP (fun r => r.severity == "high") := by
      rw [← hd, ← hd0]; simpa [siteFinish, siteInit] using hstats.2.2.1
    have hme : d.medium = g.countP (fun r => r.severity == "medium") := by
      rw [← hd, ← hd0]; simpa [siteFinish, siteInit] using hstats.2.2.2.1
    have hlo : d.low = g.countP (fun r => r.severity == "low") := by
      rw [← hd, ← hd0]; simpa [siteFinish, siteInit] using hstats.2.2.2.2
    have hsum : d.critical + d.high + d.medium + d.low = g.countP isRecognizedSev := by
      rw [hcr, hhi, hme, hlo]; exact four_countP g
    rw [buildResults_rows]
    constructor
    · rw [hsum, hc]
      exact List.countP_le_length _
    · rw [hsum, hc]
      rw [List.countP_eq_length]
      constructor
      · intro hall r hr hsite
        have : r ∈ g := by
          rw [hg, List.mem_filter]
          exact ⟨hr, by simp [hsite]⟩
        have h2 := hall r this
        simp only [isRecognizedSev, Bool.or_eq_true, beq_iff_eq] at h2
        tauto
      · intro hall r hr
        rw [hg, List.mem_filter] at hr
        have h2 := hall r hr.1 (beq_iff_eq.mp hr.2)
        simp only [isRecognizedSev, Bool.or_eq_true, beq_iff_eq]
        tauto

/-- Witness for C10 at a concrete input with a recognized and an unrecognized
severity at site A. -/
theorem c10_site_severity_subcounts_witness :
    ∃ res d, network_incidents c10input = Except.ok res
      ∧ alGet "A" res.site_summary = some d
      ∧ (d.critical + d.high + d.medium + d.low ≤ d.count
        ∧ (d.critical + d.high + d.medium + d.low = d.count ↔
            ∀ r ∈ res.rows, siteKey r = "A" →
              (r.severity = "critical" ∨ r.severity = "high" ∨ r.severity = "medium"
                ∨ r.severity = "low"))) :=
  ⟨_, _, rfl, rfl, c10_site_severity_subcounts c10input _ "A" _ rfl rfl⟩

theorem le_foldl_max (ws : List ℤ) : ∀ (w a : ℤ), (a = w ∨ a ∈ ws) → a ≤ ws.foldl max w := by
  induction ws with
  | nil =>
    intro w a h
    rcases h with h | h
    · simp [h]
    · simp at h
  | cons b t ih =>
    intro w a h
    simp only [List.foldl_cons]
    rcases h with h | h
    · exact le_trans (h ▸ le_max_left w b) (ih (max w b) (max w b) (Or.inl rfl))
    · rcases List.mem_cons.mp h with h2 | h2
      · exact le_trans (h2 ▸ le_max_right w b) (ih (max w b) (max w b) (Or.inl rfl))
      · exact ih (max w b) a (Or.inr h2)

theorem foldl_max_mem (ws : List ℤ) : ∀ (w : ℤ), ws.foldl max w = w ∨ ws.foldl max w ∈ ws := by
  induction ws with
  | nil => intro w; exact Or.inl rfl
  | cons b t ih =>
    intro w
    simp only [List.foldl_cons]
    rcases ih (max w b) with h | h
    · rcases max_choice w b with h2 | h2
      · exact Or.inl (h.trans h2)
      · exact Or.inr (List.mem_cons.mpr (Or.inl (h.trans h2)))
    · exact Or.inr (List.mem_cons.mpr (Or.inr h))

/-- Every nonzero week number of a row is at most the maximum observed week. -/
theorem week_le_maxWeek (rows : List Row) (r : Row) (hr : r ∈ rows)
    (hnz : r.week_number ≠ 0) : r.week_number ≤ maxWeekOf rows := by
  have hmem : r.week_number ∈ weeksOf rows := by
    unfold weeksOf
    rw [List.mem_filter]
    exact ⟨List.mem_map_of_mem _ hr, by simp [hnz]⟩
  unfold maxWeekOf
  cases hw : weeksOf rows with
  | nil => rw [hw] at hmem; simp at hmem
  | cons w ws =>
    rw [hw] at hmem
    rcases List.mem_cons.mp hmem with h | h
    · exact le_foldl_max ws w _ (Or.inl h)
    · exact le_foldl_max ws w _ (Or.inr h)

/-- Under nonnegative week numbers the maximum observed week is nonnegative. -/
theorem maxWeek_nonneg (rows : List Row) (hnn : ∀ r ∈ rows, 0 ≤ r.week_number) :
    0 ≤ maxWeekOf rows := by
  unfold maxWeekOf
  cases hw : weeksOf rows with
  | nil => exact le_refl 0
  | cons w ws =>
    have hwmem : w ∈ weeksOf rows := by rw [hw]; exact List.mem_cons_self _ _
    have : 0 ≤ w := by
      unfold weeksOf at hwmem
      rw [List.mem_filter] at hwmem
      rcases List.mem_map.mp hwmem.1 with ⟨r, hr, he⟩
      exact he ▸ hnn r hr
    exact le_trans this (le_foldl_max ws w w (Or.inl rfl))

/-- The recent flag accumulated by the device fold: set exactly when some
processed incident of the device has week number at least mw - 1, or it was
already set in the accumulator. -/
theorem devFold_recent (mw : ℤ) (rows : List Row) :
    ∀ (acc : List (String × DevData)) (dev : String),
    (∃ d, alGet dev (rows.foldl (devStep mw) acc) = some d ∧ d.recent = true)
    ↔ ((∃ d, alGet dev acc = some d ∧ d.recent = true)
       ∨ ∃ r ∈ rows, devKey r = dev ∧ mw - 1 ≤ r.week_number) := by
  induction rows with
  | nil =>
    intro acc dev
    simp
  | cons r t ih =>
    intro acc dev
    simp only [List.foldl_cons]
    rw [ih (devStep mw acc r) dev]
    have hstep : (∃ d, alGet dev (devStep mw acc r) = some d ∧ d.recent = true)
        ↔ ((∃ d, alGet dev acc = some d ∧ d.recent = true)
           ∨ (devKey r = dev ∧ mw - 1 ≤ r.week_number)) := by
      unfold devStep
      cases hk : devKey r == dev
      · have hne : dev ≠ devKey r := by
          intro h; rw [h] at hk; simp at hk
        rw [alGet_alUpd_ne _ _ hne]
        have hnk : ¬ (devKey r = dev) := fun h => hne h.symm
        constructor
        · exact Or.inl
        · rintro (h | ⟨hb, _⟩)
          · exact h
          · exact absurd hb hnk
      · have he : devKey r = dev := beq_iff_eq.mp hk
        subst he
        rw [alGet_alUpd_eq]
        cases hacc : alGet (devKey r) acc
        · simp [devBump, devInit, decide_eq_true_eq]
        · simp [devBump, decide_eq_true_eq, Bool.or_eq_true]
    rw [hstep]
    constructor
    · rintro ((h | h) | ⟨r2, hr2, hd2, hw2⟩)
      · exact Or.inl h
      · exact Or.inr ⟨r, List.mem_cons_self _ _, h⟩
      · exact Or.inr ⟨r2, List.mem_cons_of_mem _ hr2, hd2, hw2⟩
    · rintro (h | ⟨r2, hr2, hd2, hw2⟩)
      · exact Or.inl (Or.inl h)
      · rcases List.mem_cons.mp hr2 with h2 | h2
        · exact Or.inl (Or.inr (h2 ▸ ⟨hd2, hw2⟩))
        · exact Or.inr ⟨r2, h2, hd2, hw2⟩

/-- C8 counterexample: with one incident of device A in week -3 and one of
device B with no week (normalized to 0), the maximum observed week is -3 and
the code flags B as recent (0 is at least max_week - 1 = -4), although B has
no incident in week -3 or week -4 — the claim as stated fails. -/
theorem c8_recent_flag_counterexample :
    (network_incidents [devWkRaw "A" "-3", devRaw "B"]).toOption.map (fun res =>
      ((alGet "B" res.device_summary).map (·.recent),
        maxWeekOf res.rows,
        res.rows.map (fun r => (devKey r, r.week_number))))
      = some (some true, -3, [("A", -3), ("B", 0)])
    ∧ ¬ ((0 : ℤ) = -3 ∨ (0 : ℤ) = -3 - 1) := by
  constructor
  · decide
  · decide

/-- C8 amended: provided every week number is nonnegative (the asserted claim
fails only for negative weeks), a device is flagged recent if and only if it
has an incident in the maximum observed week or the week immediately prior.
Internally the code tests week at least max_week - 1; under nonnegative weeks
the two coincide. -/
theorem c8_recent_flag (rrs : List RawRecord) (res : Results) (dev : String) (d : DevData)
    (hok : network_incidents rrs = Except.ok res)
    (hnn : ∀ r ∈ res.rows, 0 ≤ r.week_number)
    (hget : alGet dev res.device_summary = some d) :
    d.recent = true ↔ ∃ r ∈ res.rows, devKey r = dev ∧
      (r.week_number = maxWeekOf res.rows ∨ r.week_number = maxWeekOf res.rows - 1) := by
  have hres := network_incidents_ok rrs res hok
  subst hres
  rw [buildResults_rows] at hnn ⊢
  rw [buildResults_device_summary] at hget
  unfold devSummary at hget
  set rows := rrs.map normalize with hrows
  set mw := maxWeekOf rows with hmw
  have hkey := devFold_recent mw rows [] dev
  constructor
  · intro hrec
    have hex : ∃ d2, alGet dev (rows.foldl (devStep mw) []) = some d2 ∧ d2.recent = true :=
      ⟨d, hget, hrec⟩
    rcases hkey.mp hex with h | ⟨r, hr, hd2, hw2⟩
    · exact absurd h (by simp [alGet])
    · refine ⟨r, hr, hd2, ?_⟩
      by_cases hz : r.week_number = 0
      · have h0 : 0 ≤ mw := maxWeek_nonneg rows hnn
        have h1 : mw - 1 ≤ 0 := hz ▸ hw2
        omega
      · have hle : r.week_number ≤ mw := week_le_maxWeek rows r hr hz
        omega
  · rintro ⟨r, hr, hd2, hw2⟩
    have hw3 : mw - 1 ≤ r.week_number := by omega
    rcases hkey.mpr (Or.inr ⟨r, hr, hd2, hw3⟩) with ⟨d2, hd2g, hrec⟩
    rw [hget, Option.some.injEq] at hd2g
    rw [hd2g]
    exact hrec

/-- Witness for C8 at a concrete nonnegative-week input. -/
theorem c8_recent_flag_witness :
    ∃ res d, network_incidents c8input = Except.ok res
      ∧ (∀ r ∈ res.rows, 0 ≤ r.week_number)
      ∧ alGet "SW-1" res.device_summary = some d
      ∧ (d.recent = true ↔ ∃ r ∈ res.rows, devKey r = "SW-1" ∧
          (r.week_number = maxWeekOf res.rows ∨ r.week_number = maxWeekOf res.rows - 1)) :=
  ⟨_, _, rfl, by decide, rfl, c8_recent_flag c8input _ "SW-1" _ rfl (by decide) rfl⟩

theorem dateLeB_refl (a : Date) : dateLeB a a = true := by
  simp [dateLeB]

theorem dateLeB_total (a b : Date) : dateLeB a b = true ∨ dateLeB b a = true := by
  simp only [dateLeB, Bool.or_eq_true, Bool.and_eq_true, decide_eq_true_eq, beq_iff_eq]
  omega

theorem dateLeB_trans (a b c : Date) (hab : dateLeB a b = true) (hbc : dateLeB b c = true) :
    dateLeB a c = true := by
  simp only [dateLeB, Bool.or_eq_true, Bool.and_eq_true, decide_eq_true_eq, beq_iff_eq]
    at hab hbc ⊢
  omega

theorem foldl_dMin_spec (ds : List Date) :
    ∀ d : Date,
    (ds.foldl dMin d = d ∨ ds.foldl dMin d ∈ ds)
    ∧ (∀ c, (c = d ∨ c ∈ ds) → dateLeB (ds.foldl dMin d) c = true) := by
  induction ds with
  | nil =>
    intro d
    refine ⟨Or.inl rfl, ?_⟩
    intro c hc
    rcases hc with hc | hc
    · exact hc ▸ dateLeB_refl _
    · simp at hc
  | cons b t ih =>
    intro d
    simp only [List.foldl_cons]
    have hm := ih (dMin d b)
    have hdm : dMin d b = d ∨ dMin d b = b := by
      unfold dMin; split <;> simp
    have hmd : dateLeB (dMin d b) d = true := by
      unfold dMin
      split
      · exact dateLeB_refl d
      · rename_i h
        rcases dateLeB_total d b with h2 | h2
        · exact absurd h2 h
        · exact h2
    have hmb : dateLeB (dMin d b) b = true := by
      unfold dMin
      split
      · assumption
      · exact dateLeB_refl b
    constructor
    · rcases hm.1 with h | h
      · rcases hdm with h2 | h2
        · exact Or.inl (h.trans h2)
        · exact Or.inr (List.mem_cons.mpr (Or.inl (h.trans h2)))
      · exact Or.inr (List.mem_cons.mpr (Or.inr h))
    · intro c hc
      rcases hc with hc | hc
      · exact dateLeB_trans _ _ _ (hm.2 (dMin d b) (Or.inl rfl)) (hc ▸ hmd)
      · rcases List.mem_cons.mp hc with h2 | h2
        · exact dateLeB_trans _ _ _ (hm.2 (dMin d b) (Or.inl rfl)) (h2 ▸ hmb)
        · exact hm.2 c (Or.inr h2)

theorem foldl_dMax_spec (ds : List Date) :
    ∀ d : Date,
    (ds.foldl dMax d = d ∨ ds.foldl dMax d ∈ ds)
    ∧ (∀ c, (c = d ∨ c ∈ ds) → dateLeB c (ds.foldl dMax d) = true) := by
  induction ds with
  | nil =>
    intro d
    refine ⟨Or.inl rfl, ?_⟩
    intro c hc
    rcases hc with hc | hc
    · exact hc ▸ dateLeB_refl _
    · simp at hc
  | cons b t ih =>
    intro d
    simp only [List.foldl_cons]
    have hm := ih (dMax d b)
    have hdm : dMax d b = d ∨ dMax d b = b := by
      unfold dMax; split <;> simp
    have hmd : dateLeB d (dMax d b) = true := by
      unfold dMax
      split
      · assumption
      · rename_i h
        rcases dateLeB_total d b with h2 | h2
        · exact absurd h2 h
        · exact dateLeB_refl d
    have hmb : dateLeB b (dMax d b) = true := by
      unfold dMax
      split
      · exact dateLeB_refl b
      · rename_i h
        rcases dateLeB_total d b with h2 | h2
        · exact absurd h2 h
        · exact h2
    constructor
    · rcases hm.1 with h | h
      · rcases hdm with h2 | h2
        · exact Or.inl (h.trans h2)
        · exact Or.inr (List.mem_cons.mpr (Or.inl (h.trans h2)))
      · exact Or.inr (List.mem_cons.mpr (Or.inr h))
    · intro c hc
      rcases hc with hc | hc
      · exact dateLeB_trans _ _ _ (hc ▸ hmd) (hm.2 (dMax d b) (Or.inl rfl))
      · rcases List.mem_cons.mp hc with h2 | h2
        · exact dateLeB_trans _ _ _ (h2 ▸ hmb) (hm.2 (dMax d b) (Or.inl rfl))
        · exact hm.2 c (Or.inr h2)

theorem foldl_min_le (ws : List ℤ) : ∀ (w a : ℤ), (a = w ∨ a ∈ ws) → ws.foldl min w ≤ a := by
  induction ws with
  | nil =>
    intro w a h
    rcases h with h | h
    · simp [h]
    · simp at h
  | cons b t ih =>
    intro w a h
    simp only [List.foldl_cons]
    rcases h with h | h
    · exact le_trans (ih (min w b) (min w b) (Or.inl rfl)) (h ▸ min_le_left w b)
    · rcases List.mem_cons.mp h with h2 | h2
      · exact le_trans (ih (min w b) (min w b) (Or.inl rfl)) (h2 ▸ min_le_right w b)
      · exact ih (min w b) a (Or.inr h2)

theorem foldl_min_mem (ws : List ℤ) : ∀ (w : ℤ), ws.foldl min w = w ∨ ws.foldl min w ∈ ws := by
  induction ws with
  | nil => intro w; exact Or.inl rfl
  | cons b t ih =>
    intro w
    simp only [List.foldl_cons]
    rcases ih (min w b) with h | h
    · rcases min_choice w b with h2 | h2
      · exact Or.inl (h.trans h2)
      · exact Or.inr (List.mem_cons.mpr (Or.inl (h.trans h2)))
    · exact Or.inr (List.mem_cons.mpr (Or.inr h))

/-- C6 amended: the period is a three-tier fallback. With at least one parsed
date it is the inclusive ISO span from the earliest to the latest date; with
no dates but some nonzero week it is "Week N" for a single distinct week and
the hyphenated "Weeks A-B" (not "Weeks A to B") for several; with neither it
is "Unknown period". -/
theorem c6_period_three_tier (rrs : List RawRecord) (res : Results)
    (hok : network_incidents rrs = Except.ok res) :
    (res.rows.filterMap (·.date_parsed) = [] → weeksOf res.rows = [] →
      res.period = "Unknown period")
    ∧ (∀ d dd, res.rows.filterMap (·.date_parsed) = d :: dd →
        ∃ a b, (a = d ∨ a ∈ dd) ∧ (b = d ∨ b ∈ dd)
          ∧ (∀ c, (c = d ∨ c ∈ dd) → dateLeB a c = true ∧ dateLeB c b = true)
          ∧ res.period = isoDate a ++ " to " ++ isoDate b)
    ∧ (∀ w ws, res.rows.filterMap (·.date_parsed) = [] → weeksOf res.rows = w :: ws →
        ∃ lo hi, (lo = w ∨ lo ∈ ws) ∧ (hi = w ∨ hi ∈ ws)
          ∧ (∀ u, (u = w ∨ u ∈ ws) → lo ≤ u ∧ u ≤ hi)
          ∧ (lo = hi → res.period = "Week " ++ intStr lo)
          ∧ (lo ≠ hi → res.period = "Weeks " ++ intStr lo ++ "-" ++ intStr hi)) := by
  have hres := network_incidents_ok rrs res hok
  subst hres
  rw [buildResults_rows, buildResults_period]
  refine ⟨?_, ?_, ?_⟩
  · intro hd hw
    unfold periodOf
    rw [hd, hw]
  · intro d dd hd
    refine ⟨(dd.foldl dMin d), (dd.foldl dMax d), (foldl_dMin_spec dd d).1,
      (foldl_dMax_spec dd d).1, ?_, ?_⟩
    · intro c hc
      exact ⟨(foldl_dMin_spec dd d).2 c hc, (foldl_dMax_spec dd d).2 c hc⟩
    · unfold periodOf
      rw [hd]
  · intro w ws hd hw
    refine ⟨(ws.foldl min w), (ws.foldl max w), foldl_min_mem ws w, foldl_max_mem ws w,
      ?_, ?_, ?_⟩
    · intro u hu
      exact ⟨foldl_min_le ws w u hu, le_foldl_max ws w u hu⟩
    · intro hlh
      unfold periodOf
      rw [hd, hw]
      dsimp only
      rw [if_pos (beq_iff_eq.mpr hlh)]
    · intro hlh
      unfold periodOf
      rw [hd, hw]
      dsimp only
      rw [if_neg (fun h => hlh (beq_iff_eq.mp h))]

/-- Witness for C6 at a concrete two-week input. -/
theorem c6_period_three_tier_witness :
    ∃ res, network_incidents [wkRaw "3", wkRaw "7"] = Except.ok res
      ∧ res.rows.filterMap (·.date_parsed) = []
      ∧ weeksOf res.rows = [3, 7]
      ∧ ∃ lo hi, (lo = 3 ∨ lo ∈ [(7 : ℤ)]) ∧ (hi = 3 ∨ hi ∈ [(7 : ℤ)])
          ∧ (∀ u, (u = 3 ∨ u ∈ [(7 : ℤ)]) → lo ≤ u ∧ u ≤ hi)
          ∧ (lo = hi → res.period = "Week " ++ intStr lo)
          ∧ (lo ≠ hi → res.period = "Weeks " ++ intStr lo ++ "-" ++ intStr hi) :=
  ⟨_, rfl, by decide, by decide,
    (c6_period_three_tier [wkRaw "3", wkRaw "7"] _ rfl).2.2 3 [7] (by decide) (by decide)⟩

theorem digitChar_props (e : ℕ) (he : e < 10) :
    isDigitB (digitChar e) = true ∧ (digitChar e == ' ') = false ∧ (digitChar e == ',') = false
    ∧ digitChar e ≠ '.' ∧ digitChar e ≠ '+' ∧ digitChar e ≠ '-'
    ∧ isPySpaceB (digitChar e) = false ∧ dVal (digitChar e) = e := by
  interval_cases e <;> exact by decide

theorem digitsVal_append_single (A : List Char) (c : Char) :
    digitsVal (A ++ [c]) = 10 * digitsVal A + dVal c := by
  simp [digitsVal, List.foldl_append]

theorem natDigitsF_spec : ∀ (fuel n : ℕ), n < fuel →
    digitsVal (natDigitsF fuel n) = n ∧ natDigitsF fuel n ≠ []
    ∧ ∀ c ∈ natDigitsF fuel n, ∃ e, e < 10 ∧ c = digitChar e := by
  intro fuel
  induction fuel with
  | zero => intro n h; omega
  | succ m ih =>
    intro n h
    simp only [natDigitsF]
    split
    · rename_i h10
      refine ⟨?_, by simp, ?_⟩
      · simp [digitsVal, (digitChar_props n h10).2.2.2.2.2.2.2]
      · intro c hc
        rcases List.mem_singleton.mp hc with rfl
        exact ⟨n, h10, rfl⟩
    · rename_i h10
      have hlt : n / 10 < m := by
        have h1 : n / 10 < n := Nat.div_lt_self (by omega) (by omega)
        omega
      have ihd := ih (n / 10) hlt
      have hmod : n % 10 < 10 := Nat.mod_lt _ (by omega)
      refine ⟨?_, by simp, ?_⟩
      · rw [digitsVal_append_single, ihd.1, (digitChar_props _ hmod).2.2.2.2.2.2.2]
        have := Nat.div_add_mod n 10
        omega
      · intro c hc
        rcases List.mem_append.mp hc with hc | hc
        · exact ihd.2.2 c hc
        · rcases List.mem_singleton.mp hc with rfl
          exact ⟨n % 10, hmod, rfl⟩

theorem natDigits_spec (n : ℕ) :
    digitsVal (natDigits n) = n ∧ natDigits n ≠ []
    ∧ ∀ c ∈ natDigits n, ∃ e, e < 10 ∧ c = digitChar e :=
  natDigitsF_spec (n + 1) n (Nat.lt_succ_self n)

theorem group3F_filter : ∀ (fuel : ℕ) (ds : List Char), ds.length ≤ 3 * fuel + 3 →
    (∀ c ∈ ds, (c == ' ') = false) →
    (group3F fuel ds).filter (fun c => !(c == ' ')) = ds := by
  intro fuel
  induction fuel with
  | zero =>
    intro ds _ h
    exact List.filter_eq_self.mpr (fun c hc => by simp [h c hc])
  | succ m ih =>
    intro ds hlen h
    simp only [group3F]
    split
    · exact List.filter_eq_self.mpr (fun c hc => by simp [h c hc])
    · rename_i h3
      rw [List.filter_append, List.filter_cons]
      have hsp : (!(' ' == ' ')) = false := by decide
      rw [hsp]
      simp only [Bool.false_eq_true, if_false]
      have htake : ((ds.take (ds.length - 3)).length ≤ 3 * m + 3) := by
        rw [List.length_take]
        omega
      rw [ih _ htake (fun c hc => h c (List.mem_of_mem_take hc))]
      rw [List.filter_eq_self.mpr (fun c hc => by simp [h c (List.mem_of_mem_drop hc)])]
      exact List.take_append_drop _ ds

theorem group3F_head? : ∀ (fuel : ℕ) (ds : List Char), ds ≠ [] →
    (group3F fuel ds).head? = ds.head? := by
  intro fuel
  induction fuel with
  | zero => intro ds _; rfl
  | succ m ih =>
    intro ds hne
    simp only [group3F]
    split
    · rfl
    · rename_i h3
      rw [List.head?_append]
      have hk : 1 ≤ ds.length - 3 := by omega
      have htne : ds.take (ds.length - 3) ≠ [] := by
        intro h
        have := congrArg List.length h
        rw [List.length_take] at this
        simp at this
        omega
      rw [ih _ htne]
      cases ds with
      | nil => exact absurd rfl hne
      | cons a t =>
        obtain ⟨k, hk2⟩ : ∃ k, (a :: t).length - 3 = k + 1 :=
          ⟨(a :: t).length - 3 - 1, by omega⟩
        rw [hk2, List.take_succ_cons]
        rfl

theorem twoDig_spec (r : ℕ) (hr : r < 100) :
    digitsVal (twoDig r) = r
    ∧ ∀ c ∈ twoDig r, ∃ e, e < 10 ∧ c = digitChar e := by
  have h1 : r / 10 < 10 := by omega
  have h2 : r % 10 < 10 := Nat.mod_lt _ (by omega)
  constructor
  · show digitsVal [digitChar (r / 10), digitChar (r % 10)] = r
    simp only [digitsVal, List.foldl_cons, List.foldl_nil,
      (digitChar_props _ h1).2.2.2.2.2.2.2, (digitChar_props _ h2).2.2.2.2.2.2.2]
    omega
  · intro c hc
    rcases List.mem_cons.mp hc with rfl | hc
    · exact ⟨r / 10, h1, rfl⟩
    · rcases List.mem_singleton.mp hc with rfl
      exact ⟨r % 10, h2, rfl⟩

theorem takeWhile_digits_append (A : List Char) (x : Char) (B : List Char)
    (hA : ∀ c ∈ A, isDigitB c = true) (hx : isDigitB x = false) :
    (A ++ x :: B).takeWhile isDigitB = A ∧ (A ++ x :: B).dropWhile isDigitB = x :: B := by
  induction A with
  | nil => simp [List.takeWhile_cons, List.dropWhile_cons, hx]
  | cons a A2 ih =>
    have ha : isDigitB a = true := hA a (List.mem_cons_self _ _)
    have ih2 := ih (fun c hc => hA c (List.mem_cons_of_mem _ hc))
    simp [List.takeWhile_cons, List.dropWhile_cons, ha, ih2.1, ih2.2]

theorem takeWhile_digits_all (A : List Char) (hA : ∀ c ∈ A, isDigitB c = true) :
    A.takeWhile isDigitB = A ∧ A.dropWhile isDigitB = [] := by
  induction A with
  | nil => simp
  | cons a A2 ih =>
    have ha : isDigitB a = true := hA a (List.mem_cons_self _ _)
    have ih2 := ih (fun c hc => hA c (List.mem_cons_of_mem _ hc))
    simp [List.takeWhile_cons, List.dropWhile_cons, ha, ih2.1, ih2.2]

theorem parseUFloat_digits_dot (k r : ℕ) (hr : r < 100) :
    parseUFloat (natDigits k ++ '.' :: twoDig r) = some ((k : ℚ) + (r : ℚ) / 100) := by
  have hnd := natDigits_spec k
  have hA : ∀ c ∈ natDigits k, isDigitB c = true := fun c hc => by
    rcases hnd.2.2 c hc with ⟨e, he, rfl⟩
    exact (digitChar_props e he).1
  have hT : ∀ c ∈ twoDig r, isDigitB c = true := fun c hc => by
    rcases (twoDig_spec r hr).2 c hc with ⟨e, he, rfl⟩
    exact (digitChar_props e he).1
  have hdot : isDigitB '.' = false := by decide
  have hspan := takeWhile_digits_append (natDigits k) '.' (twoDig r) hA hdot
  have htd := takeWhile_digits_all (twoDig r) hT
  have hipe : (natDigits k).isEmpty = false := by
    cases h : natDigits k with
    | nil => exact absurd h hnd.2.1
    | cons _ _ => rfl
  have hmk : mkVal (natDigits k) (twoDig r) = (k : ℚ) + (r : ℚ) / 100 := by
    unfold mkVal
    rw [hnd.1, (twoDig_spec r hr).1]
    norm_num [twoDig]
  simp only [parseUFloat, hspan.1, hspan.2, htd.1, htd.2, hipe, hmk, Bool.false_and,
    Bool.false_eq_true, if_false]

theorem pyFloatLit_no_sign (c0 : Char) (rest : List Char) (h0 : c0 ≠ '+') (h1 : c0 ≠ '-') :
    pyFloatLit (c0 :: rest) = parseUFloat (c0 :: rest) := by
  unfold pyFloatLit
  simp only [List.head?_cons, Option.some.injEq]
  rw [if_neg h0, if_neg h1]

theorem pyFloatLit_neg_sign (t : List Char) :
    pyFloatLit ('-' :: t) = (parseUFloat t).map Neg.neg := by
  unfold pyFloatLit
  have h1 : ¬ (('-' :: t).head? = some '+') := by
    intro h
    rw [List.head?_cons] at h
    exact absurd (Option.some.inj h) (by decide)
  have h2 : ('-' :: t).head? = some '-' := by rw [List.head?_cons]
  rw [if_neg h1, if_pos h2]
  rfl

/-- pyFloatLit of digits, a point and two digits: the unsigned decimal value. -/
theorem pyFloatLit_digits_dot (k r : ℕ) (hr : r < 100) :
    pyFloatLit (natDigits k ++ '.' :: twoDig r) = some ((k : ℚ) + (r : ℚ) / 100) := by
  have hnd := natDigits_spec k
  cases hD : natDigits k with
  | nil => exact absurd hD hnd.2.1
  | cons c0 crest =>
    have hc0 : c0 ∈ natDigits k := by rw [hD]; exact List.mem_cons_self _ _
    rcases hnd.2.2 c0 hc0 with ⟨e, he, rfl⟩
    rw [List.cons_append]
    rw [pyFloatLit_no_sign _ _ (digitChar_props e he).2.2.2.2.1
      (digitChar_props e he).2.2.2.2.2.1]
    rw [← List.cons_append]
    rw [← hD]
    exact parseUFloat_digits_dot k r hr

theorem pyStripL_eq_self (L : List Char)
    (h1 : ∀ c, L.head? = some c → isPySpaceB c = false)
    (h2 : ∀ c, L.getLast? = some c → isPySpaceB c = false) :
    pyStripL L = L := by
  cases L with
  | nil => rfl
  | cons a t =>
    unfold pyStripL
    have ha : isPySpaceB a = false := h1 a rfl
    rw [List.dropWhile_cons]
    simp only [ha, Bool.false_eq_true, if_false]
    cases hR : (a :: t).reverse with
    | nil => exact absurd hR (by simp)
    | cons e R =>
      have he : isPySpaceB e = false := by
        apply h2
        rw [← List.head?_reverse, hR]
        rfl
      rw [List.dropWhile_cons]
      simp only [he, Bool.false_eq_true, if_false]
      rw [← hR, List.reverse_reverse]

/-- The character content of renderCenti, named once for the proofs. -/
theorem renderCenti_shape (m : ℤ) :
    renderCenti m = (if m < 0 then ['-'] else [])
      ++ group3 (natDigits (m.natAbs / 100)) ++ ',' :: twoDig (m.natAbs % 100) := rfl

theorem renderCenti_strip (m : ℤ) : pyStripL (renderCenti m) = renderCenti m := by
  have hr : m.natAbs % 100 < 100 := Nat.mod_lt _ (by omega)
  have hnd := natDigits_spec (m.natAbs / 100)
  apply pyStripL_eq_self
  · intro c hc
    rw [renderCenti_shape] at hc
    by_cases hm : m < 0
    · rw [if_pos hm] at hc
      simp only [List.cons_append, List.head?_cons, Option.some.injEq] at hc
      rw [← hc]
      decide
    · rw [if_neg hm, List.nil_append, List.head?_append] at hc
      rw [group3, group3F_head? _ _ hnd.2.1] at hc
      cases hD : natDigits (m.natAbs / 100) with
      | nil => exact absurd hD hnd.2.1
      | cons c0 crest =>
        rw [hD] at hc
        simp only [List.head?_cons, Option.or_some, Option.some.injEq] at hc
        rcases hnd.2.2 c0 (hD ▸ List.mem_cons_self _ _) with ⟨e, he, hce⟩
        rw [← hc, hce]
        exact (digitChar_props e he).2.2.2.2.2.2.1
  · intro c hc
    rw [renderCenti_shape, List.append_assoc, List.getLast?_append,
      List.getLast?_append] at hc
    have hlast : (',' :: twoDig (m.natAbs % 100)).getLast? =
        some (digitChar (m.natAbs % 100 % 10)) := rfl
    rw [hlast] at hc
    simp only [Option.or] at hc
    rw [Option.some.injEq] at hc
    have h2 : m.natAbs % 100 % 10 < 10 := Nat.mod_lt _ (by omega)
    rw [← hc]
    exact (digitChar_props _ h2).2.2.2.2.2.2.1

theorem renderCenti_ne_nil (m : ℤ) : renderCenti m ≠ [] := by
  rw [renderCenti_shape]
  simp [List.append_eq_nil]

theorem map_commafix_id (A : List Char) (h : ∀ c ∈ A, (c == ',') = false) :
    A.map (fun c => if c == ',' then '.' else c) = A := by
  induction A with
  | nil => rfl
  | cons a t ih =>
    rw [List.map_cons, h a (List.mem_cons_self _ _)]
    simp only [Bool.false_eq_true, if_false]
    rw [ih (fun c hc => h c (List.mem_cons_of_mem _ hc))]

theorem swTransform_renderCenti (m : ℤ) :
    swTransform ⟨renderCenti m⟩
      = (if m < 0 then ['-'] else [])
        ++ natDigits (m.natAbs / 100) ++ '.' :: twoDig (m.natAbs % 100) := by
  have hr : m.natAbs % 100 < 100 := Nat.mod_lt _ (by omega)
  have hnd := natDigits_spec (m.natAbs / 100)
  have hDsp : ∀ c ∈ natDigits (m.natAbs / 100), (c == ' ') = false := fun c hc => by
    rcases hnd.2.2 c hc with ⟨e, he, rfl⟩
    exact (digitChar_props e he).2.1
  have hDco : ∀ c ∈ natDigits (m.natAbs / 100), (c == ',') = false := fun c hc => by
    rcases hnd.2.2 c hc with ⟨e, he, rfl⟩
    exact (digitChar_props e he).2.2.1
  have hTsp : ∀ c ∈ twoDig (m.natAbs % 100), (c == ' ') = false := fun c hc => by
    rcases (twoDig_spec _ hr).2 c hc with ⟨e, he, rfl⟩
    exact (digitChar_props e he).2.1
  have hTco : ∀ c ∈ twoDig (m.natAbs % 100), (c == ',') = false := fun c hc => by
    rcases (twoDig_spec _ hr).2 c hc with ⟨e, he, rfl⟩
    exact (digitChar_props e he).2.2.1
  unfold swTransform
  have hstr : pyStrip ⟨renderCenti m⟩ = ⟨renderCenti m⟩ := by
    show (⟨pyStripL (renderCenti m)⟩ : String) = ⟨renderCenti m⟩
    rw [renderCenti_strip]
  rw [hstr]
  show ((renderCenti m).filter (fun c => !(c == ' '))).map (fun c => if c == ',' then '.' else c)
    = _
  rw [renderCenti_shape, List.filter_append, List.filter_append, List.filter_cons]
  have hsp : (!(' ' == ' ')) = false := by decide
  have hcomma : (!(',' == ' ')) = true := by decide
  rw [hcomma]
  simp only [if_true]
  have hsign : (if m < 0 then ['-'] else []).filter (fun c => !(c == ' '))
      = (if m < 0 then ['-'] else []) := by
    split <;> decide
  rw [hsign]
  rw [show group3 (natDigits (m.natAbs / 100)) = group3F (natDigits (m.natAbs / 100)).length
      (natDigits (m.natAbs / 100)) from rfl]
  rw [group3F_filter _ _ (by omega) hDsp]
  rw [List.filter_eq_self.mpr (fun c hc => by simp [hTsp c hc])]
  rw [List.map_append, List.map_append, List.map_cons]
  have hmsign : (if m < 0 then ['-'] else []).map (fun c => if c == ',' then '.' else c)
      = (if m < 0 then ['-'] else []) := by
    split <;> decide
  rw [hmsign]
  rw [map_commafix_id _ hDco, map_commafix_id _ hTco]
  norm_num

theorem parse_renderCenti (m : ℤ) :
    parse_swedish_float (.str ⟨renderCenti m⟩) = (m : ℚ) / 100 := by
  have hr : m.natAbs % 100 < 100 := Nat.mod_lt _ (by omega)
  have hnd := natDigits_spec (m.natAbs / 100)
  have hval : (((m.natAbs / 100 : ℕ) : ℚ) + ((m.natAbs % 100 : ℕ) : ℚ) / 100)
      = ((m.natAbs : ℕ) : ℚ) / 100 := by
    have h100 : (100 : ℚ) * ((m.natAbs / 100 : ℕ) : ℚ) + ((m.natAbs % 100 : ℕ) : ℚ)
        = ((m.natAbs : ℕ) : ℚ) := by
      exact_mod_cast congrArg (fun n : ℕ => (n : ℚ)) (Nat.div_add_mod m.natAbs 100)
    rw [← h100]
    ring
  have hne : (⟨renderCenti m⟩ : String) ≠ "" := by
    intro h
    exact renderCenti_ne_nil m (congrArg String.data h)
  have hstr : pyStrip ⟨renderCenti m⟩ = ⟨renderCenti m⟩ := by
    show (⟨pyStripL (renderCenti m)⟩ : String) = ⟨renderCenti m⟩
    rw [renderCenti_strip]
  have e1 : parse_swedish_float (.str ⟨renderCenti m⟩)
      = if pyStrip ⟨renderCenti m⟩ = "" then 0
        else (pyFloatLit (swTransform ⟨renderCenti m⟩)).getD 0 := rfl
  rw [e1, hstr, if_neg hne, swTransform_renderCenti]
  by_cases hm : m < 0
  · rw [if_pos hm]
    rw [List.append_assoc]
    rw [List.singleton_append]
    rw [pyFloatLit_neg_sign]
    rw [parseUFloat_digits_dot _ _ hr]
    simp only [Option.map_some', Option.getD_some]
    rw [hval]
    have hna : ((m.natAbs : ℕ) : ℚ) = -(m : ℚ) := by
      rw [Int.cast_natAbs]
      exact_mod_cast abs_of_neg hm
    rw [hna]
    ring
  · rw [if_neg hm, List.nil_append]
    rw [pyFloatLit_digits_dot _ _ hr]
    simp only [Option.getD_some]
    rw [hval]
    have hna : ((m.natAbs : ℕ) : ℚ) = (m : ℚ) := by
      rw [Int.cast_natAbs]
      exact_mod_cast abs_of_nonneg (not_lt.mp hm)
    rw [hna]

theorem qFloor_intCast (m : ℤ) : qFloor (m : ℚ) = m := by
  unfold qFloor
  rw [Rat.intCast_num, Rat.intCast_den]
  rw [Nat.cast_one, Int.fdiv_one]

theorem roundHE_intCast (m : ℤ) : roundHE (m : ℚ) = m := by
  unfold roundHE
  rw [qFloor_intCast, sub_self]
  rw [if_pos (by norm_num)]

theorem format_sek_num_div (m : ℤ) : format_sek (.num ((m : ℚ) / 100)) = ⟨renderCenti m⟩ := by
  have h : (100 : ℚ) * ((m : ℚ) / 100) = (m : ℚ) := by
    rw [mul_comm]
    exact div_mul_cancel₀ _ (by norm_num)
  show (⟨renderCenti (roundHE (100 * ((m : ℚ) / 100)))⟩ : String) = ⟨renderCenti m⟩
  rw [h, roundHE_intCast]

/-- C4: the currency round trip. Every well-formed Swedish-style currency
string (optional sign, space-grouped digits, comma, two decimals — the
canonical renderings) is reproduced exactly by formatting its parsed value,
and a non-numeric input formats as "0,00". -/
theorem c4_sek_round_trip :
    (∀ x : String, wfSEK x →
      format_sek (.num (parse_swedish_float (.str x))) = x)
    ∧ format_sek (.str "abc") = "0,00" := by
  refine ⟨?_, by decide⟩
  rintro x ⟨m, rfl⟩
  rw [parse_renderCenti]
  exact format_sek_num_div m

/-- Witness for C4 at the concrete canonical string for 1234.50 SEK. -/
theorem c4_sek_round_trip_witness :
    wfSEK "1 234,50"
    ∧ format_sek (.num (parse_swedish_float (.str "1 234,50"))) = "1 234,50" :=
  ⟨⟨123450, by decide⟩, c4_sek_round_trip.1 "1 234,50" ⟨123450, by decide⟩⟩

end Analyse
